import Mathlib

/-!
Verification development for the PDF parser service
(`pdf-parser-service/main.py`).

Shallow embedding conventions:
* Python strings are modelled as `List Char` (`Str`); all text operations
  below are transcribed from the source's string/regex code.
* Floats appearing in geometry (bounding boxes, origins, thresholds) are
  modelled as exact rationals `ℚ`; none of the verified properties depends
  on binary floating-point rounding.
* Python's `sorted` is a stable sort; since a stable sort by a fixed key is
  extensionally unique, it is modelled by a structural stable insertion
  sort (`sortBy`) over a strict "key less than" test.
* Backend calls that may raise a recoverable error
  (`page.get_text("rawdict")`, `page.get_text("blocks")`) are modelled as
  `Option`-valued fields of the page model: `none` means the call raised;
  the `try/except` in the source corresponds to matching on `none`.
  `page.get_text("text")` is total per the interface contract of the spec
  ("Tier 3 never fails").
-/

abbrev Str := List Char

/-- Python `\s` / `str.strip` whitespace, ASCII range (space, tab, newline,
carriage return, vertical tab, form feed). -/
def isSpaceChar (c : Char) : Bool :=
  c = ' ' || c = '\t' || c = '\n' || c = '\r' || c = '\x0b' || c = '\x0c'

/-- Python regex `\w` (ASCII range): letters, digits, underscore. -/
def isWordChar (c : Char) : Bool :=
  c.isAlphanum || c = '_'

/-- `s.replace("\x00", "")` from `_post_process_text`. -/
def removeNulls (s : Str) : Str :=
  s.filter (fun c => c ≠ '\x00')

/-- The characters of the replacement string `"https://"`. -/
def httpsStr : Str := ['h', 't', 't', 'p', 's', ':', '/', '/']

/-- One attempted match of the regex `https:/\s*/` at the head of `s`:
literal `https:/`, then a maximal whitespace run, then `/`.  (Backtracking
is irrelevant: a shorter whitespace run is followed by another whitespace
character, never by `/`.)  Returns the remainder after the match. -/
def urlMatch (s : Str) : Option Str :=
  match s with
  | 'h' :: 't' :: 't' :: 'p' :: 's' :: ':' :: '/' :: r =>
    match r.dropWhile isSpaceChar with
    | '/' :: r2 => some r2
    | _ => none
  | _ => none

/-- Left-to-right non-overlapping rewriting by `re.sub(r"https:/\s*/",
"https://", s)`.  The `Nat` argument is fuel; every recursive call consumes
at least one input character per unit of fuel, so with fuel `s.length` the
fuel never runs out and the scan is exactly Python's. -/
def urlFixF : Nat → Str → Str
  | 0, s => s
  | _ + 1, [] => []
  | n + 1, c :: rest =>
    match urlMatch (c :: rest) with
    | some r2 => httpsStr ++ urlFixF n r2
    | none => c :: urlFixF n rest

/-- `re.sub(r"https:/\s*/", "https://", s)`. -/
def urlFix (s : Str) : Str := urlFixF s.length s

/-- Left-to-right non-overlapping rewriting by
`re.sub(r"(\w)-\n(\w)", r"\1\2", s)`: a word character, `-`, `\n`, word
character become the two word characters; on a match the scan resumes after
the consumed second word character.  The `Nat` argument is fuel; every
recursive call consumes at least one input character per unit of fuel, so
with fuel `s.length` the scan is exactly Python's. -/
def hyphenFixF : Nat → Str → Str
  | 0, s => s
  | _ + 1, [] => []
  | n + 1, a :: rest =>
    match rest with
    | '-' :: '\n' :: b :: rest2 =>
      if isWordChar a && isWordChar b then a :: b :: hyphenFixF n rest2
      else a :: hyphenFixF n rest
    | _ => a :: hyphenFixF n rest

/-- `re.sub(r"(\w)-\n(\w)", r"\1\2", s)`. -/
def hyphenFix (s : Str) : Str := hyphenFixF s.length s

/-- Python `s.strip()`: drop leading whitespace, then drop trailing
whitespace (via reversal). -/
def stripChars (s : Str) : Str :=
  ((s.dropWhile isSpaceChar).reverse.dropWhile isSpaceChar).reverse

/-- `_post_process_text` (main.py lines 57-66): empty input is returned
unchanged; otherwise remove null characters, repair split URLs, join
hyphenated line breaks, and strip surrounding whitespace. -/
def post_process_text (s : Str) : Str :=
  if s = [] then s
  else stripChars (hyphenFix (urlFix (removeNulls s)))

/-- Strict "less than" on a key: stable insertion of `x` into a list,
passing over exactly the elements strictly smaller than `x`. -/
def insertBy (lt : α → α → Bool) (x : α) : List α → List α
  | [] => [x]
  | y :: ys => if lt y x then y :: insertBy lt x ys else x :: y :: ys

/-- Stable sort by the strict comparison `lt` (insertion sort).  Python's
`sorted`/`list.sort` are stable, and a stable sort by a fixed key is
extensionally unique, so this models them exactly. -/
def sortBy (lt : α → α → Bool) : List α → List α
  | [] => []
  | x :: xs => insertBy lt x (sortBy lt xs)

/-- Python `round(q, 1)` on exact rationals: round `q * 10` to the nearest
integer, ties to the even integer (banker's rounding), divide by 10. -/
def roundHalfEven (q : ℚ) : ℤ :=
  let f : ℤ := ⌊q⌋
  let r : ℚ := q - f
  if r < 1 / 2 then f
  else if 1 / 2 < r then f + 1
  else if f % 2 = 0 then f else f + 1

/-- Python `round(q, 1)`. -/
def round1 (q : ℚ) : ℚ := (roundHalfEven (q * 10) : ℚ) / 10

/-- Lexicographic strict comparison of two key pairs. -/
def pairLt (a b : ℚ × ℚ) : Bool :=
  decide (a.1 < b.1) || (decide (a.1 = b.1) && decide (a.2 < b.2))

/-- A glyph span from the `rawdict` backend query: text plus the x
coordinate of its rendering origin (`s.get("origin", [0,0])[0]`). -/
structure SpanM where
  origin_x : ℚ
  text : Str
deriving DecidableEq

/-- A line bounding box `(x0, y0, x1, y1)`. -/
structure BBoxM where
  x0 : ℚ
  y0 : ℚ
  x1 : ℚ
  y1 : ℚ
deriving DecidableEq

/-- A `rawdict` line: bounding box and its spans. -/
structure RLineM where
  bbox : BBoxM
  spans : List SpanM
deriving DecidableEq

/-- A `rawdict` block: bounding box, type (`some 0` = text, `none` =
Python `None`, treated as text; anything else is skipped), and lines. -/
structure RBlockM where
  bbox : BBoxM
  typ : Option Nat
  lines : List RLineM
deriving DecidableEq

/-- A `get_text("blocks")` tuple `(x0, y0, x1, y1, text, block_no,
block_type)`: `typ = some 0` or `typ = none` (absent or Python `None`)
means a text block. -/
structure TBlockM where
  x0 : ℚ
  y0 : ℚ
  x1 : ℚ
  y1 : ℚ
  text : Str
  typ : Option Nat
deriving DecidableEq

/-- A page as seen through the three backend queries.  `rawdict = none`
(resp. `blocks = none`) models `page.get_text("rawdict")` (resp.
`page.get_text("blocks")`) raising a recoverable error; `plain` models
`page.get_text("text")`, total per the interface contract. -/
structure PageM where
  rawdict : Option (List RBlockM)
  blocks : Option (List TBlockM)
  plain : Str
deriving DecidableEq

/-- Strict comparison of spans by `origin_x` (sort key in
`_extract_page_text_rawdict`, line 103). -/
def spanLt (a b : SpanM) : Bool := decide (a.origin_x < b.origin_x)

/-- The `parts` list: span texts in sorted order, empties skipped
(lines 106-111). -/
def spanParts : List SpanM → List Str
  | [] => []
  | s :: ss => if s.text = [] then spanParts ss else s.text :: spanParts ss

/-- A collected line record `(y0, y1, x0, text)` (line 117). -/
structure LineRec where
  y0 : ℚ
  y1 : ℚ
  x0 : ℚ
  text : Str
deriving DecidableEq

/-- Process one `rawdict` line (lines 97-117): sort spans by origin x,
join the non-empty span texts with no separator, skip the line if no
part survives, and record `(y0, y1, x0, text)` from the line bbox. -/
def lineTuple (ln : RLineM) : Option LineRec :=
  let parts := spanParts (sortBy spanLt ln.spans)
  if parts = [] then none
  else some ⟨ln.bbox.y0, ln.bbox.y1, ln.bbox.x0, parts.flatten⟩

/-- Block sort key for `rawdict` blocks (`_bbox_key`, lines 82-84). -/
def rblockLt (a b : RBlockM) : Bool :=
  pairLt (round1 a.bbox.y0, round1 a.bbox.x0) (round1 b.bbox.y0, round1 b.bbox.x0)

/-- Lines contributed by one `rawdict` block: text blocks only
(`type in (0, None)`, line 94), each line via `lineTuple`. -/
def rblockLines (b : RBlockM) : List LineRec :=
  if b.typ = some 0 ∨ b.typ = none then b.lines.filterMap lineTuple else []

/-- All collected lines of a page (lines 78-117): blocks sorted top-left,
non-text blocks skipped, surviving lines appended in order. -/
def collectLines (blocks : List RBlockM) : List LineRec :=
  (sortBy rblockLt blocks).flatMap rblockLines

/-- Line sort key for the page-level re-sort (line 123). -/
def lineLt (a b : LineRec) : Bool :=
  pairLt (round1 a.y0, round1 a.x0) (round1 b.y0, round1 b.x0)

/-- The paragraph-grouping loop of `_extract_page_text_rawdict`
(lines 126-149), with `prev_y1`/`prev_x0` carried as one optional pair
(in the source both are `None` exactly together: they are assigned
together on every iteration).  Returns the accumulated `paragraphs`
and the pending `current` group. -/
def segLoop : List LineRec → List Str → List Str → Option (ℚ × ℚ) → List Str × List Str
  | [], paragraphs, current, _ => (paragraphs, current)
  | ln :: rest, paragraphs, current, prev =>
    match prev with
    | none => segLoop rest paragraphs (current ++ [ln.text]) (some (ln.y1, ln.x0))
    | some (py1, px0) =>
      let vgap := ln.y0 - py1
      let xdelta := |ln.x0 - px0|
      if vgap > 7 ∨ (xdelta > 18 ∧ vgap > 2) then
        segLoop rest (paragraphs ++ [List.intercalate ['\n'] current]) [ln.text] (some (ln.y1, ln.x0))
      else
        segLoop rest paragraphs (current ++ [ln.text]) (some (ln.y1, ln.x0))

/-- Paragraph segmentation (lines 126-149): run the loop, then flush the
pending group if non-empty. -/
def segmentParas (lines : List LineRec) : List Str :=
  let pc := segLoop lines [] [] none
  if pc.2 = [] then pc.1 else pc.1 ++ [List.intercalate ['\n'] pc.2]

/-- Strict comparison of `blocks` tuples by `(round(y0,1), round(x0,1))`
(line 35). -/
def tblockLt (a b : TBlockM) : Bool :=
  pairLt (round1 a.y0, round1 a.x0) (round1 b.y0, round1 b.x0)

/-- The `texts` list of `_extract_page_text_blocks` (lines 39-52): skip
empty texts, keep only text-type blocks (`block_type in (0, None)` or the
type field absent). -/
def tblockTexts : List TBlockM → List Str
  | [] => []
  | b :: bs =>
    if b.text = [] then tblockTexts bs
    else
      match b.typ with
      | some t => if t ≠ 0 then tblockTexts bs else b.text :: tblockTexts bs
      | none => b.text :: tblockTexts bs

/-- `_extract_page_text_blocks` (lines 26-55): on backend failure fall
back to plain text; otherwise sort blocks top-left, join surviving block
texts with `"\n"`, and fall back to plain text if the result is empty. -/
def extract_page_text_blocks (p : PageM) : Str :=
  match p.blocks with
  | none => p.plain
  | some bs =>
    let joined := List.intercalate ['\n'] (tblockTexts (sortBy tblockLt bs))
    if joined = [] then p.plain else joined

/-- `_extract_page_text_rawdict` (lines 68-153): on backend failure or an
empty collected-line list fall back to `_extract_page_text_blocks`;
otherwise re-sort all lines top-left, group them into paragraphs, join the
paragraphs with blank lines, and fall back to the block extractor if the
joined text is empty. -/
def extract_page_text_rawdict (p : PageM) : Str :=
  match p.rawdict with
  | none => extract_page_text_blocks p
  | some blocks =>
    let collected := collectLines blocks
    if collected = [] then extract_page_text_blocks p
    else
      let sortedLines := sortBy lineLt collected
      let page_text := List.intercalate ['\n', '\n'] (segmentParas sortedLines)
      if page_text = [] then extract_page_text_blocks p else page_text

/-- Text of one assembled line (lines 100-114): spans sorted by origin x,
non-empty texts concatenated with no separator. -/
def lineText (spans : List SpanM) : Str :=
  (spanParts (sortBy spanLt spans)).flatten

/-- A document as seen by the parser: its pages in document order. -/
structure DocM where
  pages : List PageM
deriving DecidableEq

/-- Oracle describing where the backend raises the transient
stream-related `RuntimeError` during one request:
* `ok` — the first open and all page extractions succeed;
* `retryAfter k` — the first attempt raises after `k` pages were
  processed (`k = 0`: the open itself fails) and the reopen-from-bytes
  retry succeeds;
* `retryFail` — the first attempt raises and the retry raises again. -/
inductive Attempt where
  | ok
  | retryAfter (k : Nat)
  | retryFail
deriving DecidableEq

/-- One entry of the `pages` array of the response (`PageText`). -/
structure PageOut where
  page_number : Nat
  text : Str
deriving DecidableEq

/-- The `/parse` response: full text, per-page texts, and the page count
from the metadata dictionary. -/
structure ParseResp where
  text : Str
  pages : List PageOut
  page_count : Nat
deriving DecidableEq

/-- The `/parse-text-only` response: full text and page count. -/
structure TextOnlyResp where
  text : Str
  page_count : Nat
deriving DecidableEq

/-- `full_text` accumulation (lines 240 / 252 / 328 / 338): starting from
`""`, append each page's text plus `"\n"` in order. -/
def accumulate (texts : List Str) : Str :=
  texts.foldl (fun acc t => acc ++ (t ++ ['\n'])) []

/-- Cleaning applied per page on the `/parse` retry path (line 250):
`page.get_text("text").replace('\x00', '').strip()`. -/
def retryClean (p : PageM) : Str :=
  stripChars (removeNulls p.plain)

/-- Per-page text on the `/parse` primary path (lines 228-233). -/
def parsedPage (p : PageM) : Str :=
  post_process_text (extract_page_text_rawdict p)

/-- Number the page texts `1, 2, ...` (lines 235-238 / 251). -/
def numberPages (texts : List Str) : List PageOut :=
  (List.enumFrom 1 texts).map (fun it => ⟨it.1, it.2⟩)

/-- `parse_pdf` (`/parse`, main.py lines 184-268), successful and
retry-exhausted outcomes.  `pages_data` and `full_text` are initialized
before the `try` (lines 211-212) and are NOT reset when the
`except RuntimeError` retry runs, so on `retryAfter k` the `k` pages
processed by the first attempt stay in front of the retry's pages.  The
retry extracts every page with `page.get_text("text")` only (line 249).
The final `full_text` is post-processed once more (line 254). -/
def parse_pdf (doc : DocM) (att : Attempt) : Except Unit ParseResp :=
  match att with
  | .ok =>
    let cleaned := doc.pages.map parsedPage
    .ok ⟨post_process_text (accumulate cleaned), numberPages cleaned, doc.pages.length⟩
  | .retryAfter k =>
    let firstTry := (doc.pages.take k).map parsedPage
    let retried := doc.pages.map retryClean
    .ok ⟨post_process_text (accumulate (firstTry ++ retried)),
         numberPages firstTry ++ numberPages retried, doc.pages.length⟩
  | .retryFail => .error ()

/-- `parse_pdf_text_only` (`/parse-text-only`, main.py lines 284-348),
successful and retry-exhausted outcomes.  Unlike `/parse`, the retry
(lines 332-338) resets `full_text` to `""` (line 334) and extracts each
page with `_extract_page_text_rawdict` again (line 337), so a successful
retry computes exactly what a successful first attempt computes. -/
def parse_pdf_text_only (doc : DocM) (att : Attempt) : Except Unit TextOnlyResp :=
  match att with
  | .ok =>
    .ok ⟨post_process_text (accumulate (doc.pages.map extract_page_text_rawdict)),
         doc.pages.length⟩
  | .retryAfter _ =>
    .ok ⟨post_process_text (accumulate (doc.pages.map extract_page_text_rawdict)),
         doc.pages.length⟩
  | .retryFail => .error ()

/-- Final flush of the paragraph loop (lines 148-149). -/
def finishSeg (pc : List Str × List Str) : List Str :=
  if pc.2 = [] then pc.1 else pc.1 ++ [List.intercalate ['\n'] pc.2]

/-- Number of lines at which the loop starts a new paragraph, given the
previous line's `(y1, x0)`. -/
def boundaryCount : ℚ × ℚ → List LineRec → Nat
  | _, [] => 0
  | py, ln :: rest =>
    (if ln.y0 - py.1 > 7 ∨ (|ln.x0 - py.2| > 18 ∧ ln.y0 - py.1 > 2) then 1 else 0)
      + boundaryCount (ln.y1, ln.x0) rest

/-- A page on which both rich queries fail and the plain text is `"hi"`. -/
def pageHi : PageM := ⟨none, none, "hi".data⟩

/-- A one-page document built from `pageHi`. -/
def docHi : DocM := ⟨[pageHi]⟩

/-- The `/parse` response for `docHi` on the no-retry path. -/
def respHi : ParseResp := ⟨"hi".data, [⟨1, "hi".data⟩], 1⟩

/-- Two degenerate pages with distinguishable plain texts. -/
def pagePA : PageM := ⟨none, none, "PA".data⟩

/-- Second page of the two-page document. -/
def pagePB : PageM := ⟨none, none, "PB".data⟩

/-- A two-page document with plain texts `"PA"`, `"PB"`. -/
def docAB : DocM := ⟨[pagePA, pagePB]⟩

/-- A degenerate bounding box. -/
def bbox0 : BBoxM := ⟨0, 0, 0, 0⟩

/-- A page whose `rawdict` query yields structured text `"AB"` while its
plain text is `"ZZ"` (the `blocks` query fails). -/
def pageC8 : PageM :=
  ⟨some [⟨bbox0, some 0, [⟨bbox0, [⟨0, "AB".data⟩]⟩]⟩], none, "ZZ".data⟩

/-- A one-page document built from `pageC8`. -/
def docC8 : DocM := ⟨[pageC8]⟩

/-! ### Sanity checks and helper lemmas -/

example : post_process_text "exam-\nple".data = "example".data := by decide
example : post_process_text "https:/\n/example.com".data = "https://example.com".data := by decide
example : hyphenFix "end-\n ".data = "end-\n ".data := by decide
example : post_process_text "a-\nb-\nc".data = "ab-\nc".data := by decide
example : post_process_text "ab-\nc".data = "abc".data := by decide

example : round1 (25 / 1000) = 0 := by
  norm_num [round1, roundHalfEven]
example : round1 (15 / 100) = 2 / 10 := by
  norm_num [round1, roundHalfEven]
example : round1 (75 / 1000) = 1 / 10 := by
  norm_num [round1, roundHalfEven]

theorem head?_dropWhile_not (p : Char → Bool) :
    ∀ (l : Str) (c : Char), (l.dropWhile p).head? = some c → p c = false := by
  intro l
  induction l with
  | nil => intro c h; simp [List.dropWhile] at h
  | cons a l ih =>
    intro c h
    rw [List.dropWhile_cons] at h
    by_cases ha : p a
    · simp [ha] at h; exact ih c h
    · simp [ha] at h
      subst h
      exact eq_false_of_ne_true ha

theorem dropWhile_head?_false (p : Char → Bool) (l : Str) :
    (∀ c, l.head? = some c → p c = false) → l.dropWhile p = l := by
  intro h
  cases l with
  | nil => rfl
  | cons a l =>
    have := h a rfl
    simp [List.dropWhile_cons, this]

theorem dropWhile_idem (p : Char → Bool) (l : Str) :
    (l.dropWhile p).dropWhile p = l.dropWhile p := by
  apply dropWhile_head?_false
  intro c h
  exact head?_dropWhile_not p l c h

theorem getLast?_of_suffix {l₁ l₂ : Str} (h : l₁ <:+ l₂) (hne : l₁ ≠ []) :
    l₁.getLast? = l₂.getLast? := by
  obtain ⟨t, rfl⟩ := h
  rw [List.getLast?_append_of_ne_nil _ hne]

theorem stripChars_head? (s : Str) (c : Char) :
    (stripChars s).head? = some c → isSpaceChar c = false := by
  intro h
  unfold stripChars at h
  rw [List.head?_reverse] at h
  have hne : (s.dropWhile isSpaceChar).reverse.dropWhile isSpaceChar ≠ [] := by
    intro hnil; rw [hnil] at h; simp at h
  rw [getLast?_of_suffix (List.dropWhile_suffix _) hne] at h
  rw [List.getLast?_reverse] at h
  exact head?_dropWhile_not _ _ _ h

theorem stripChars_getLast? (s : Str) (c : Char) :
    (stripChars s).getLast? = some c → isSpaceChar c = false := by
  intro h
  unfold stripChars at h
  rw [List.getLast?_reverse] at h
  exact head?_dropWhile_not _ _ _ h

theorem stripChars_idem (s : Str) : stripChars (stripChars s) = stripChars s := by
  have h1 : (stripChars s).dropWhile isSpaceChar = stripChars s := by
    apply dropWhile_head?_false
    intro c hc
    exact stripChars_head? s c hc
  have h2 : (stripChars s).reverse
      = (s.dropWhile isSpaceChar).reverse.dropWhile isSpaceChar := by
    unfold stripChars
    rw [List.reverse_reverse]
  calc stripChars (stripChars s)
      = (((stripChars s).dropWhile isSpaceChar).reverse.dropWhile isSpaceChar).reverse := rfl
    _ = ((stripChars s).reverse.dropWhile isSpaceChar).reverse := by rw [h1]
    _ = stripChars s := by
        rw [h2, dropWhile_idem]
        rfl

theorem mem_stripChars {s : Str} {c : Char} (h : c ∈ stripChars s) : c ∈ s := by
  unfold stripChars at h
  rw [List.mem_reverse] at h
  have h2 := (List.dropWhile_suffix (l := (s.dropWhile isSpaceChar).reverse)
    isSpaceChar).subset h
  rw [List.mem_reverse] at h2
  exact (List.dropWhile_suffix isSpaceChar).subset h2

theorem hyphenFixF_sublist (n : Nat) (l : Str) : List.Sublist (hyphenFixF n l) l := by
  induction n, l using hyphenFixF.induct
  case case1 => simp [hyphenFixF]
  case case2 => simp [hyphenFixF]
  case case3 n a b rest2 hcond ih =>
    simp only [hyphenFixF, hcond, if_true]
    exact List.Sublist.cons₂ a (List.Sublist.cons '-'
      (List.Sublist.cons '\n' (List.Sublist.cons₂ b ih)))
  case case4 n a b rest2 hcond ih =>
    simp only [hyphenFixF, hcond, if_false, Bool.false_eq_true]
    exact List.Sublist.cons₂ a ih
  case case5 n a rest hne ih =>
    rw [hyphenFixF]
    · exact List.Sublist.cons₂ a ih
    · exact hne

theorem mem_hyphenFix {s : Str} {c : Char} (h : c ∈ hyphenFix s) : c ∈ s :=
  (hyphenFixF_sublist s.length s).subset h

theorem mem_of_urlMatch {s r2 : Str} (h : urlMatch s = some r2) {c : Char}
    (hc : c ∈ r2) : c ∈ s := by
  unfold urlMatch at h
  split at h
  · next r =>
    split at h
    · next r3 heq =>
      injection h with h
      subst h
      have h1 : c ∈ List.dropWhile isSpaceChar r := by
        rw [heq]; exact List.mem_cons_of_mem _ hc
      have h2 : c ∈ r := (List.dropWhile_suffix isSpaceChar).subset h1
      simp [h2]
    · exact absurd h (by simp)
  · exact absurd h (by simp)

theorem mem_urlFixF : ∀ (n : Nat) (l : Str) (c : Char),
    c ∈ urlFixF n l → c ∈ l ∨ c ∈ httpsStr := by
  intro n
  induction n with
  | zero => intro l c h; exact Or.inl h
  | succ n ih =>
    intro l c h
    cases l with
    | nil => simp [urlFixF] at h
    | cons a rest =>
      rw [urlFixF] at h
      split at h
      · next r2 heq =>
        rcases List.mem_append.mp h with h1 | h1
        · exact Or.inr h1
        · rcases ih r2 c h1 with h2 | h2
          · exact Or.inl (mem_of_urlMatch heq h2)
          · exact Or.inr h2
      · rcases List.mem_cons.mp h with h1 | h1
        · exact Or.inl (h1 ▸ List.mem_cons_self a rest)
        · rcases ih rest c h1 with h2 | h2
          · exact Or.inl (List.mem_cons_of_mem a h2)
          · exact Or.inr h2

theorem mem_urlFix {s : Str} {c : Char} (h : c ∈ urlFix s) :
    c ∈ s ∨ c ∈ httpsStr :=
  mem_urlFixF s.length s c h

/-- Every character of a post-processed string is a non-null character. -/
theorem post_process_text_no_null (s : Str) :
    ∀ c ∈ post_process_text s, c ≠ '\x00' := by
  intro c hc
  unfold post_process_text at hc
  split at hc
  · simp_all
  · have h1 := mem_stripChars hc
    have h2 := mem_hyphenFix h1
    rcases mem_urlFix h2 with h3 | h3
    · have := List.mem_filter.mp h3
      simpa using this.2
    · intro hnull
      subst hnull
      simp [httpsStr] at h3

theorem removeNulls_of_no_null (s : Str) (h : ∀ c ∈ s, c ≠ '\x00') :
    removeNulls s = s := by
  unfold removeNulls
  apply List.filter_eq_self.mpr
  intro c hc
  simpa using h c hc

theorem insertBy_perm (lt : α → α → Bool) (x : α) :
    ∀ l : List α, (insertBy lt x l).Perm (x :: l) := by
  intro l
  induction l with
  | nil => simp [insertBy]
  | cons y ys ih =>
    rw [insertBy]
    split
    · exact ((ih.cons y).trans (List.Perm.swap x y ys))
    · exact List.Perm.refl _

theorem sortBy_perm (lt : α → α → Bool) :
    ∀ l : List α, (sortBy lt l).Perm l := by
  intro l
  induction l with
  | nil => simp [sortBy]
  | cons x xs ih =>
    rw [sortBy]
    exact (insertBy_perm lt x (sortBy lt xs)).trans (ih.cons x)

theorem mem_insertBy {lt : α → α → Bool} {x z : α} :
    ∀ {l : List α}, z ∈ insertBy lt x l → z = x ∨ z ∈ l := by
  intro l h
  have := (insertBy_perm lt x l).subset h
  simpa using this

theorem insertBy_pairwise {lt : α → α → Bool}
    (hasym : ∀ a b, lt a b = true → lt b a = false)
    (hneg : ∀ a b c, lt b a = false → lt c b = false → lt c a = false)
    (x : α) : ∀ l : List α, List.Pairwise (fun a b => lt b a = false) l →
    List.Pairwise (fun a b => lt b a = false) (insertBy lt x l) := by
  intro l
  induction l with
  | nil => intro _; simp [insertBy]
  | cons y ys ih =>
    intro hp
    rw [insertBy]
    split
    · next hyx =>
      refine List.Pairwise.cons ?_ (ih hp.of_cons)
      intro z hz
      rcases mem_insertBy hz with rfl | hz2
      · exact hasym y z hyx
      · exact List.rel_of_pairwise_cons hp hz2
    · next hyx =>
      have hyx2 : lt y x = false := eq_false_of_ne_true hyx
      refine List.Pairwise.cons ?_ hp
      intro z hz
      rcases List.mem_cons.mp hz with rfl | hz2
      · exact hyx2
      · exact hneg x y z hyx2 (List.rel_of_pairwise_cons hp hz2)

theorem sortBy_pairwise {lt : α → α → Bool}
    (hasym : ∀ a b, lt a b = true → lt b a = false)
    (hneg : ∀ a b c, lt b a = false → lt c b = false → lt c a = false) :
    ∀ l : List α, List.Pairwise (fun a b => lt b a = false) (sortBy lt l) := by
  intro l
  induction l with
  | nil => simp [sortBy]
  | cons x xs ih => exact insertBy_pairwise hasym hneg x _ ih

theorem spanParts_flatten : ∀ l : List SpanM,
    (spanParts l).flatten = (l.map (fun s => s.text)).flatten := by
  intro l
  induction l with
  | nil => rfl
  | cons s ss ih =>
    rw [spanParts]
    split
    · next hs => simp [hs, ih]
    · simp [ih]

theorem accumulate_eq_flatten (texts : List Str) :
    accumulate texts = (texts.map (fun t => t ++ ['\n'])).flatten := by
  unfold accumulate
  suffices h : ∀ (acc : Str), texts.foldl (fun acc t => acc ++ (t ++ ['\n'])) acc
      = acc ++ (texts.map (fun t => t ++ ['\n'])).flatten by
    simpa using h []
  induction texts with
  | nil => intro acc; simp
  | cons t ts ih =>
    intro acc
    simp only [List.foldl_cons, List.map_cons, List.flatten_cons, ih, List.append_assoc]

theorem numberPages_texts (texts : List Str) :
    (numberPages texts).map (fun pg => pg.text) = texts := by
  unfold numberPages
  rw [List.map_map]
  have : ((fun pg => pg.text) ∘ fun it => (⟨it.1, it.2⟩ : PageOut)) = Prod.snd := rfl
  rw [this, List.enumFrom_map_snd]

theorem segmentParas_eq_finish (lines : List LineRec) :
    segmentParas lines = finishSeg (segLoop lines [] [] none) := rfl

theorem segLoop_flush_length : ∀ (rest : List LineRec) (paras current : List Str)
    (py : ℚ × ℚ), current ≠ [] →
    (finishSeg (segLoop rest paras current (some py))).length
      = paras.length + 1 + boundaryCount py rest := by
  intro rest
  induction rest with
  | nil =>
    intro paras current py hc
    simp [segLoop, finishSeg, boundaryCount, hc]
  | cons ln rest ih =>
    intro paras current py hc
    obtain ⟨py1, px0⟩ := py
    rw [segLoop, boundaryCount]
    split
    · next hcond =>
      rw [ih _ [ln.text] _ (by simp)]
      simp [hcond]
      omega
    · next hcond =>
      rw [ih _ (current ++ [ln.text]) _ (by simp)]
      simp [hcond]

theorem boundaryCount_eq_countP : ∀ (ls : List LineRec) (l : LineRec),
    boundaryCount (l.y1, l.x0) ls
      = ((l :: ls).zip ls).countP
          (fun pq => decide (pq.2.y0 - pq.1.y1 > 7
            ∨ (|pq.2.x0 - pq.1.x0| > 18 ∧ pq.2.y0 - pq.1.y1 > 2))) := by
  intro ls
  induction ls with
  | nil => intro l; simp [boundaryCount]
  | cons l2 ls ih =>
    intro l
    rw [boundaryCount, List.zip_cons_cons, List.countP_cons, ih l2]
    simp only [decide_eq_true_eq]
    split
    · next h => simp [h]; omega
    · next h => simp [h]

/-! ### Claim theorems, witnesses and counterexamples -/

/-- C4, counterexample: the text normalizer is not idempotent.  On
`"a-\nb-\nc"` the first pass joins only the first hyphenated line break
(the scan resumes after the consumed `b`), yielding `"ab-\nc"`; a second
pass joins the remaining one, yielding `"abc"`. -/
theorem C4_not_idempotent_counterexample :
    post_process_text (post_process_text ['a', '-', '\n', 'b', '-', '\n', 'c'])
      ≠ post_process_text ['a', '-', '\n', 'b', '-', '\n', 'c'] := by
  decide

/-- C4, amended: applying the text normalizer twice yields the same result
as applying it once for every input whose once-normalized form is a fixed
point of the URL-repair and hyphen-join rewrites (equivalently, whenever
the single pass left no rewrite opportunity behind, which fails only for
overlapping matches as in the counterexample). -/
theorem C4_idempotent_on_rewrite_fixed_points (s : Str)
    (hurl : urlFix (post_process_text s) = post_process_text s)
    (hhyp : hyphenFix (post_process_text s) = post_process_text s) :
    post_process_text (post_process_text s) = post_process_text s := by
  by_cases hs : post_process_text s = []
  · rw [hs]; rfl
  · have hnn : removeNulls (post_process_text s) = post_process_text s :=
      removeNulls_of_no_null _ (post_process_text_no_null s)
    rw [post_process_text, if_neg hs, hnn, hurl, hhyp]
    by_cases hs0 : s = []
    · exact absurd (by rw [hs0]; rfl) hs
    · have hexp : post_process_text s
          = stripChars (hyphenFix (urlFix (removeNulls s))) := by
        rw [post_process_text, if_neg hs0]
      rw [hexp, stripChars_idem]

/-- Witness for the amended C4 at the concrete input `"x-\ny"`. -/
theorem C4_idempotent_witness :
    urlFix (post_process_text ['x', '-', '\n', 'y'])
        = post_process_text ['x', '-', '\n', 'y']
    ∧ hyphenFix (post_process_text ['x', '-', '\n', 'y'])
        = post_process_text ['x', '-', '\n', 'y']
    ∧ post_process_text (post_process_text ['x', '-', '\n', 'y'])
        = post_process_text ['x', '-', '\n', 'y'] :=
  ⟨by decide, by decide,
   C4_idempotent_on_rewrite_fixed_points _ (by decide) (by decide)⟩

/-- C6: the hyphen rule rewrites word-hyphen-newline-word to the two word
characters (shown in minimal context and on the spec's `"exam-\nple"`
example through the full normalizer), and leaves a hyphen-newline followed
by a non-word character unchanged (minimal context and `"end-\n "`). -/
theorem C6_hyphen_rule :
    (∀ a b : Char, isWordChar a = true → isWordChar b = true →
        hyphenFix [a, '-', '\n', b] = [a, b])
    ∧ (∀ a c : Char, isWordChar a = true → isWordChar c = false →
        hyphenFix [a, '-', '\n', c] = [a, '-', '\n', c])
    ∧ post_process_text "exam-\nple".data = "example".data
    ∧ hyphenFix "end-\n ".data = "end-\n ".data := by
  refine ⟨?_, ?_, by decide, by decide⟩
  · intro a b ha hb
    simp [hyphenFix, hyphenFixF, ha, hb]
  · intro a c ha hc
    simp [hyphenFix, hyphenFixF, ha, hc]

/-- Witness for C6 at `a := 'x'`, `b := 'y'`, `c := ' '`. -/
theorem C6_hyphen_rule_witness :
    hyphenFix ['x', '-', '\n', 'y'] = ['x', 'y']
    ∧ hyphenFix ['x', '-', '\n', ' '] = ['x', '-', '\n', ' '] :=
  ⟨C6_hyphen_rule.1 'x' 'y' (by decide) (by decide),
   C6_hyphen_rule.2.1 'x' ' ' (by decide) (by decide)⟩

/-- C9: the extraction selector is total (it returns a possibly empty
string for every page model): a failing `rawdict` query is absorbed by
falling back to the block extractor, a failing `blocks` query is absorbed
by falling back to the plain text, and on a page where everything fails or
is empty the returned string is simply empty. -/
theorem C9_selector_total :
    (∀ p : PageM, p.rawdict = none →
        extract_page_text_rawdict p = extract_page_text_blocks p)
    ∧ (∀ p : PageM, p.blocks = none → extract_page_text_blocks p = p.plain)
    ∧ extract_page_text_rawdict ⟨none, none, []⟩ = [] := by
  refine ⟨?_, ?_, by decide⟩
  · intro p h
    simp [extract_page_text_rawdict, h]
  · intro p h
    simp [extract_page_text_blocks, h]

/-- Witness for C9 on pages where exactly one rich query fails. -/
theorem C9_selector_total_witness :
    extract_page_text_rawdict ⟨none, some [], "x".data⟩
        = extract_page_text_blocks ⟨none, some [], "x".data⟩
    ∧ extract_page_text_blocks ⟨some [], none, "y".data⟩ = "y".data :=
  ⟨C9_selector_total.1 ⟨none, some [], "x".data⟩ rfl,
   C9_selector_total.2.1 ⟨some [], none, "y".data⟩ rfl⟩

/-- C3: if Tier 1 collects no line, the selector returns exactly what the
Tier 2 block extractor returns; if additionally Tier 2's joined block text
is empty, the page output (selector result, normalized at the caller)
equals the page's plain text, normalized. -/
theorem C3_tier_fallback :
    (∀ (p : PageM) (rd : List RBlockM), p.rawdict = some rd →
        collectLines rd = [] →
        extract_page_text_rawdict p = extract_page_text_blocks p)
    ∧ (∀ (p : PageM) (rd : List RBlockM) (bs : List TBlockM),
        p.rawdict = some rd → collectLines rd = [] →
        p.blocks = some bs →
        List.intercalate ['\n'] (tblockTexts (sortBy tblockLt bs)) = [] →
        post_process_text (extract_page_text_rawdict p)
          = post_process_text p.plain) := by
  constructor
  · intro p rd h hc
    simp [extract_page_text_rawdict, h, hc]
  · intro p rd bs h hc hb hj
    have h1 : extract_page_text_rawdict p = extract_page_text_blocks p := by
      simp [extract_page_text_rawdict, h, hc]
    have h2 : extract_page_text_blocks p = p.plain := by
      simp [extract_page_text_blocks, hb, hj]
    rw [h1, h2]

/-- Witness for C3 on a page with empty rich data. -/
theorem C3_tier_fallback_witness :
    extract_page_text_rawdict ⟨some [], some [], "pt".data⟩
        = extract_page_text_blocks ⟨some [], some [], "pt".data⟩
    ∧ post_process_text (extract_page_text_rawdict ⟨some [], some [], "pt".data⟩)
        = post_process_text "pt".data :=
  ⟨C3_tier_fallback.1 ⟨some [], some [], "pt".data⟩ [] rfl rfl,
   C3_tier_fallback.2 ⟨some [], some [], "pt".data⟩ [] [] rfl rfl rfl rfl⟩

/-- C5: the paragraph segmenter starts a new paragraph at a line exactly
when `vgap > 7` or (`xdelta > 18` and `vgap > 2`), where `vgap` is the
line's `y0` minus the previous line's `y1` and `xdelta` is the absolute
difference of the two lines' `x0`: for any non-empty line list the number
of produced paragraphs is one plus the number of consecutive pairs
satisfying that condition; in particular two lines with `vgap = 8` give
two paragraphs and two lines with `vgap = 5`, `xdelta = 0` give one. -/
theorem C5_paragraph_boundaries :
    (∀ (l : LineRec) (ls : List LineRec),
        (segmentParas (l :: ls)).length
          = 1 + ((l :: ls).zip ls).countP
              (fun pq => decide (pq.2.y0 - pq.1.y1 > 7
                ∨ (|pq.2.x0 - pq.1.x0| > 18 ∧ pq.2.y0 - pq.1.y1 > 2))))
    ∧ segmentParas [⟨0, 10, 0, "a".data⟩, ⟨18, 20, 0, "b".data⟩]
        = ["a".data, "b".data]
    ∧ segmentParas [⟨0, 10, 0, "a".data⟩, ⟨15, 25, 0, "b".data⟩]
        = ["a\nb".data] := by
  refine ⟨?_, ?_, ?_⟩
  · intro l ls
    rw [segmentParas_eq_finish, segLoop]
    rw [show ([] : List Str) ++ [l.text] = [l.text] from rfl]
    rw [segLoop_flush_length ls [] [l.text] (l.y1, l.x0) (by simp)]
    rw [boundaryCount_eq_countP ls l]
    simp
  · norm_num [segmentParas, segLoop, finishSeg, List.intercalate]
  · norm_num [segmentParas, segLoop, finishSeg, List.intercalate]
    decide

/-- C7: the line assembler's output is the concatenation, with no
separator, of the span texts after a stable ascending sort by `origin_x`
(the sorted list is a permutation of the input, pairwise ordered by
`origin_x`, and ties keep the original relative order); in particular
spans `[(50, "World"), (0, "Hello ")]` yield `"Hello World"`. -/
theorem C7_line_assembler :
    (∀ spans : List SpanM,
        lineText spans = ((sortBy spanLt spans).map (fun s => s.text)).flatten)
    ∧ (∀ spans : List SpanM, (sortBy spanLt spans).Perm spans)
    ∧ (∀ spans : List SpanM,
        List.Pairwise (fun a b => a.origin_x ≤ b.origin_x) (sortBy spanLt spans))
    ∧ (∀ s t : SpanM, s.origin_x = t.origin_x → sortBy spanLt [s, t] = [s, t])
    ∧ lineText [⟨50, "World".data⟩, ⟨0, "Hello ".data⟩] = "Hello World".data := by
  refine ⟨?_, sortBy_perm spanLt, ?_, ?_, by decide⟩
  · intro spans
    unfold lineText
    rw [spanParts_flatten]
  · intro spans
    have hasym : ∀ a b : SpanM, spanLt a b = true → spanLt b a = false := by
      intro a b hab
      simp only [spanLt, decide_eq_true_eq] at hab
      simp only [spanLt, decide_eq_false_iff_not]
      exact not_lt.mpr (le_of_lt hab)
    have hneg : ∀ a b c : SpanM, spanLt b a = false → spanLt c b = false →
        spanLt c a = false := by
      intro a b c h1 h2
      simp only [spanLt, decide_eq_false_iff_not, not_lt] at h1 h2 ⊢
      exact le_trans h1 h2
    have h := sortBy_pairwise hasym hneg spans
    apply h.imp
    intro a b hab
    simpa [spanLt, not_lt] using hab
  · intro s t h
    simp [sortBy, insertBy, spanLt, h, lt_irrefl]

/-- Witness for C7's tie case at two spans with equal origin. -/
theorem C7_line_assembler_witness :
    sortBy spanLt [⟨5, "a".data⟩, ⟨5, "b".data⟩]
      = [(⟨5, "a".data⟩ : SpanM), ⟨5, "b".data⟩] :=
  C7_line_assembler.2.2.2.1 ⟨5, "a".data⟩ ⟨5, "b".data⟩ rfl

theorem numberPages_map_newline (texts : List Str) :
    (numberPages texts).map (fun pg => pg.text ++ ['\n'])
      = texts.map (fun t => t ++ ['\n']) := by
  have h : (fun pg : PageOut => pg.text ++ ['\n'])
      = (fun t : Str => t ++ ['\n']) ∘ (fun pg : PageOut => pg.text) := rfl
  rw [h, ← List.map_map, numberPages_texts]

/-- C1: on every successful return of `/parse` (no-retry and retry paths
alike), the returned full text is the post-processed concatenation of the
returned pages' texts, each followed by a single newline; and on the
no-retry path each returned page text is itself the normalizer applied to
the extraction selector's output for that page. -/
theorem C1_full_text_concat :
    (∀ (doc : DocM) (att : Attempt) (r : ParseResp), parse_pdf doc att = .ok r →
        r.text = post_process_text
          ((r.pages.map (fun pg => pg.text ++ ['\n'])).flatten))
    ∧ (∀ (doc : DocM) (r : ParseResp), parse_pdf doc .ok = .ok r →
        r.pages.map (fun pg => pg.text)
          = doc.pages.map (fun p =>
              post_process_text (extract_page_text_rawdict p))) := by
  constructor
  · intro doc att r hok
    cases att with
    | ok =>
      simp only [parse_pdf] at hok
      injection hok with h
      subst h
      simp only [numberPages_map_newline, accumulate_eq_flatten]
    | retryAfter k =>
      simp only [parse_pdf] at hok
      injection hok with h
      subst h
      simp only [List.map_append, numberPages_map_newline,
        accumulate_eq_flatten, List.flatten_append]
    | retryFail => simp [parse_pdf] at hok
  · intro doc r hok
    simp only [parse_pdf] at hok
    injection hok with h
    subst h
    simp only [numberPages_texts]
    rfl

/-- Witness for C1 on the one-page document `docHi`. -/
theorem C1_full_text_concat_witness :
    parse_pdf docHi .ok = .ok respHi
    ∧ respHi.text = post_process_text
        ((respHi.pages.map (fun pg => pg.text ++ ['\n'])).flatten)
    ∧ respHi.pages.map (fun pg => pg.text)
        = docHi.pages.map (fun p =>
            post_process_text (extract_page_text_rawdict p)) :=
  ⟨rfl, C1_full_text_concat.1 docHi .ok respHi rfl,
   C1_full_text_concat.2 docHi respHi rfl⟩

/-- C2, code-bug evaluation: `/parse` initializes `pages_data` and
`full_text` before the `try` and does not reset them when the
`RuntimeError` retry runs (unlike `/parse-text-only`, which resets
`full_text` on its retry), so when the first attempt fails after one page
of the two-page `docAB` was already appended, the successful retry returns
pages numbered `[1, 1, 2]` — page 1 duplicated and the claimed
`pages[i].page_number == i+1` invariant violated at index 1 — while the
metadata still reports 2 pages. -/
theorem C2_retry_duplicates_pages :
    (parse_pdf docAB (.retryAfter 1)).map
        (fun r => r.pages.map (fun pg => pg.page_number)) = .ok [1, 1, 2]
    ∧ (parse_pdf docAB (.retryAfter 1)).map (fun r => r.page_count) = .ok 2 := by
  constructor
  · rfl
  · rfl

/-- C8, counterexample: on the stream-reopen retry, `/parse-text-only`
re-runs the full tiered extraction (`_extract_page_text_rawdict`, line
337) rather than the plain-text tier: on `docC8`, whose only page has
structured text `"AB"` but plain text `"ZZ"`, the retry returns `"AB"`,
whereas a plain-text-only retry would return `"ZZ"`. -/
theorem C8_text_only_retry_uses_tiers :
    parse_pdf_text_only docC8 (.retryAfter 0) = .ok ⟨"AB".data, 1⟩
    ∧ post_process_text
        (accumulate (docC8.pages.map (fun p => stripChars (removeNulls p.plain))))
        = "ZZ".data
    ∧ ("AB".data : Str) ≠ "ZZ".data := by
  refine ⟨rfl, rfl, by decide⟩

/-- C8, amended: when the first open fails, exactly one retry runs and a
second failure is final (`retryFail` yields the error outcome for both
endpoints); on the retry, `/parse` extracts every page with the cleaned
plain text only, while `/parse-text-only` re-runs the full three-tier
extraction, reproducing exactly its no-retry output. -/
theorem C8_retry_paths :
    (∀ doc : DocM, parse_pdf doc (.retryAfter 0)
        = .ok ⟨post_process_text (accumulate (doc.pages.map retryClean)),
               numberPages (doc.pages.map retryClean), doc.pages.length⟩)
    ∧ (∀ (doc : DocM) (k : Nat),
        parse_pdf_text_only doc (.retryAfter k) = parse_pdf_text_only doc .ok)
    ∧ (∀ doc : DocM, parse_pdf doc .retryFail = .error ())
    ∧ (∀ doc : DocM, parse_pdf_text_only doc .retryFail = .error ()) := by
  refine ⟨?_, fun doc k => rfl, fun doc => rfl, fun doc => rfl⟩
  intro doc
  simp [parse_pdf, retryClean, numberPages]

/-- C10: the normalizer's output never starts or ends with a whitespace
character, and consequently the full text of every successful `/parse`
response never ends with the newline separator appended after each page. -/
theorem C10_no_surrounding_whitespace :
    (∀ (s : Str) (c : Char), (post_process_text s).head? = some c →
        isSpaceChar c = false)
    ∧ (∀ (s : Str) (c : Char), (post_process_text s).getLast? = some c →
        isSpaceChar c = false)
    ∧ (∀ (doc : DocM) (att : Attempt) (r : ParseResp) (c : Char),
        parse_pdf doc att = .ok r → r.text.getLast? = some c → c ≠ '\n') := by
  have hlast : ∀ (s : Str) (c : Char), (post_process_text s).getLast? = some c →
      isSpaceChar c = false := by
    intro s c h
    unfold post_process_text at h
    split at h
    · next hs => rw [hs] at h; simp at h
    · exact stripChars_getLast? _ c h
  refine ⟨?_, hlast, ?_⟩
  · intro s c h
    unfold post_process_text at h
    split at h
    · next hs => rw [hs] at h; simp at h
    · exact stripChars_head? _ c h
  · intro doc att r c hok hl
    have key : ∀ X : Str, r.text = post_process_text X → c ≠ '\n' := by
      intro X hX hcn
      rw [hX] at hl
      have := hlast X c hl
      rw [hcn] at this
      simp [isSpaceChar] at this
    cases att with
    | ok =>
      simp only [parse_pdf] at hok
      injection hok with h
      exact key _ (by rw [← h])
    | retryAfter k =>
      simp only [parse_pdf] at hok
      injection hok with h
      exact key _ (by rw [← h])
    | retryFail => simp [parse_pdf] at hok

/-- Witness for C10 at a concrete input and the `docHi` parse. -/
theorem C10_no_surrounding_whitespace_witness :
    isSpaceChar 'a' = false
    ∧ isSpaceChar 'b' = false
    ∧ ('i' ≠ '\n') :=
  ⟨C10_no_surrounding_whitespace.1 " a ".data 'a' (by decide),
   C10_no_surrounding_whitespace.2.1 " b ".data 'b' (by decide),
   C10_no_surrounding_whitespace.2.2 docHi .ok respHi 'i' rfl (by decide)⟩
